import Mathlib

/-!
Shallow embedding of the Personal Finance Tracker ledger core
(`src/Main.py`): the `Transaction` record, the `FinanceManager` state
(in-memory transaction list, next-id counter, and the durable store it
reads and writes), and the operations `load_transactions`,
`save_transactions`, `add_transaction`, `delete_transaction`,
`get_all_transactions`, `get_transactions_by_type`, `calculate_balance`
and `get_category_summary`.

Python floats are modelled as rationals, `datetime.now()` as an explicit
string argument (`now`) to `add_transaction` and to the loading path —
`Transaction.__init__` substitutes the current time for a falsy (empty)
`date`, so decoding a stored record needs the clock too — dictionaries
produced by `to_dict` as records with one `Option` field per key
(missing key = `none`, reads of a missing key raise `KeyError`, modelled
as `Option` failure), and the JSON file as a `DurableStore` value
(absent, unparseable, or a parsed record).
-/

namespace FinanceTracker

/-- One recorded financial event (`class Transaction` in `src/Main.py`). -/
structure Transaction where
  transaction_id : Int
  transaction_type : String
  category : String
  amount : ℚ
  description : String
  date : String
deriving DecidableEq, Repr

/-- The dictionary produced by `Transaction.to_dict`; each field is the
value stored under the corresponding key, `none` when the key is absent. -/
structure TxDict where
  transaction_id : Option Int
  transaction_type : Option String
  category : Option String
  amount : Option ℚ
  description : Option String
  date : Option String
deriving DecidableEq, Repr

/-- `Transaction.to_dict`: every key present. -/
def Transaction.to_dict (t : Transaction) : TxDict :=
  { transaction_id := some t.transaction_id
    transaction_type := some t.transaction_type
    category := some t.category
    amount := some t.amount
    description := some t.description
    date := some t.date }

/-- `Transaction.from_dict`: reads the six keys with `data[...]`; a
missing key raises `KeyError`, modelled as `none`. The values are passed
to `Transaction.__init__`, whose `date if date else datetime.now()`
default replaces a falsy (empty-string) stored date with the current
time `now`. -/
def Transaction.from_dict (now : String) (d : TxDict) : Option Transaction := do
  let i ← d.transaction_id
  let ty ← d.transaction_type
  let c ← d.category
  let a ← d.amount
  let de ← d.description
  let dt ← d.date
  pure ⟨i, ty, c, a, de, if dt = "" then now else dt⟩

/-- The top-level dictionary of the JSON file: key `transactions`
(a list of transaction dictionaries) and key `next_id`. -/
structure StoreDict where
  transactions : Option (List TxDict)
  next_id : Option Int
deriving DecidableEq, Repr

/-- The durable store: the file may be absent, present but unparseable
as JSON, or parsed to a `StoreDict`. -/
inductive DurableStore where
  | absent
  | unparseable
  | parsed (d : StoreDict)
deriving DecidableEq, Repr

/-- The list comprehension `[Transaction.from_dict(t) for t in ...]`:
fails (raises `KeyError`) as soon as one record is malformed. `now` is
the clock value at load time. -/
def loadRecords (now : String) : List TxDict → Option (List Transaction)
  | [] => some []
  | d :: ds =>
    match Transaction.from_dict now d, loadRecords now ds with
    | some t, some ts => some (t :: ts)
    | _, _ => none

/-- `class FinanceManager`: the in-memory transaction list, the next-id
counter, and the contents of the data file. -/
structure FinanceManager where
  transactions : List Transaction
  next_transaction_id : Int
  data_file : DurableStore
deriving DecidableEq, Repr

/-- `FinanceManager.load_transactions`: if the file exists, parse it and
read `data['transactions']` (mapping `from_dict` over it) and
`data.get('next_id', 1)`; on `JSONDecodeError` or `KeyError` reset to the
empty list and counter 1. -/
def FinanceManager.load_transactions (m : FinanceManager) (now : String) :
    FinanceManager :=
  match m.data_file with
  | .absent => m
  | .unparseable => { m with transactions := [], next_transaction_id := 1 }
  | .parsed d =>
    match d.transactions with
    | none => { m with transactions := [], next_transaction_id := 1 }
    | some ts =>
      match loadRecords now ts with
      | none => { m with transactions := [], next_transaction_id := 1 }
      | some txs =>
        { m with transactions := txs, next_transaction_id := d.next_id.getD 1 }

/-- `FinanceManager.__init__`: start with the empty list and counter 1,
then call `load_transactions` on the given data file; `now` is the clock
at construction time. -/
def FinanceManager.init (store : DurableStore) (now : String) : FinanceManager :=
  FinanceManager.load_transactions
    { transactions := [], next_transaction_id := 1, data_file := store } now

/-- `FinanceManager.save_transactions`: replace the data file wholesale
with the serialized transactions and the counter. -/
def FinanceManager.save_transactions (m : FinanceManager) : FinanceManager :=
  { m with
    data_file := .parsed
      { transactions := some (m.transactions.map Transaction.to_dict)
        next_id := some m.next_transaction_id } }

/-- `FinanceManager.add_transaction`: build the transaction with id =
current counter and the current time, append it, increment the counter,
save, and return the transaction. -/
def FinanceManager.add_transaction (m : FinanceManager)
    (transaction_type category : String) (amount : ℚ)
    (description : String) (now : String) : Transaction × FinanceManager :=
  let t : Transaction :=
    ⟨m.next_transaction_id, transaction_type, category, amount, description, now⟩
  (t, FinanceManager.save_transactions
    { m with
      transactions := m.transactions ++ [t]
      next_transaction_id := m.next_transaction_id + 1 })

/-- The loop in `delete_transaction`: remove the first element whose
`transaction_id` matches, or report that none does. -/
def removeFirstById (i : Int) : List Transaction → Option (List Transaction)
  | [] => none
  | t :: ts =>
    if t.transaction_id = i then some ts
    else (removeFirstById i ts).map (t :: ·)

/-- `FinanceManager.delete_transaction`: pop the first matching
transaction and save, returning `true`; return `false` (no write) when
no transaction matches. -/
def FinanceManager.delete_transaction (m : FinanceManager) (i : Int) :
    Bool × FinanceManager :=
  match removeFirstById i m.transactions with
  | none => (false, m)
  | some ts =>
    (true, FinanceManager.save_transactions { m with transactions := ts })

/-- `FinanceManager.get_all_transactions`. -/
def FinanceManager.get_all_transactions (m : FinanceManager) : List Transaction :=
  m.transactions

/-- `FinanceManager.get_transactions_by_type`: the list comprehension
filtering on `transaction_type`. -/
def FinanceManager.get_transactions_by_type (m : FinanceManager)
    (transaction_type : String) : List Transaction :=
  m.transactions.filter (fun t => t.transaction_type = transaction_type)

/-- `FinanceManager.calculate_balance`: `sum` of the income amounts minus
`sum` of the expense amounts, each a left fold over the list as Python's
`sum` of a generator is. -/
def FinanceManager.calculate_balance (m : FinanceManager) : ℚ :=
  let income := m.transactions.foldl
    (fun acc t => if t.transaction_type = "income" then acc + t.amount else acc) 0
  let expenses := m.transactions.foldl
    (fun acc t => if t.transaction_type = "expense" then acc + t.amount else acc) 0
  income - expenses

/-- `summary.get(category, 0)` on the insertion-ordered dictionary,
modelled as an association list. -/
def lookupCat : List (String × ℚ) → String → Option ℚ
  | [], _ => none
  | (k, v) :: rest, c => if k = c then some v else lookupCat rest c

/-- `summary[category] = value` on the insertion-ordered dictionary:
overwrite in place if the key exists, append otherwise. -/
def dictSet : List (String × ℚ) → String → ℚ → List (String × ℚ)
  | [], c, v => [(c, v)]
  | (k, w) :: rest, c, v =>
    if k = c then (k, v) :: rest else (k, w) :: dictSet rest c v

/-- The body of the loop in `get_category_summary`. -/
def summaryStep (summary : List (String × ℚ)) (t : Transaction) :
    List (String × ℚ) :=
  if t.transaction_type = "expense" then
    dictSet summary t.category ((lookupCat summary t.category).getD 0 + t.amount)
  else summary

/-- `FinanceManager.get_category_summary`: fold the loop body over the
transactions, starting from the empty dictionary. -/
def FinanceManager.get_category_summary (m : FinanceManager) :
    List (String × ℚ) :=
  m.transactions.foldl summaryStep []

/-- The operations a caller can perform on a ledger after construction. -/
inductive Op where
  | add (transaction_type category : String) (amount : ℚ)
      (description : String) (now : String)
  | delete (i : Int)

/-- Apply one operation, keeping the resulting state. -/
def applyOp (m : FinanceManager) : Op → FinanceManager
  | .add ty c a d n => (m.add_transaction ty c a d n).2
  | .delete i => (m.delete_transaction i).2

/-- Run a sequence of operations. -/
def runOps (m : FinanceManager) : List Op → FinanceManager
  | [] => m
  | op :: ops => runOps (applyOp m op) ops

/-- The ids of the transactions returned by the `add` calls of a
sequence, in call order. -/
def addedIds (m : FinanceManager) : List Op → List Int
  | [] => []
  | .add ty c a d n :: ops =>
    (m.add_transaction ty c a d n).1.transaction_id ::
      addedIds (applyOp m (.add ty c a d n)) ops
  | .delete i :: ops => addedIds (applyOp m (.delete i)) ops

/-- The ids present in the state at some point while running a sequence
of operations (the current state's ids included). -/
def idsEverPresent (m : FinanceManager) : List Op → List Int
  | [] => m.transactions.map (·.transaction_id)
  | op :: ops =>
    m.transactions.map (·.transaction_id) ++ idsEverPresent (applyOp m op) ops

/-- The counter invariant: the next-id counter strictly exceeds every id
in the collection. -/
def ledgerInv (m : FinanceManager) : Prop :=
  ∀ t ∈ m.transactions, t.transaction_id < m.next_transaction_id

/-- Spec-side: total amount of the transactions of a kind. -/
def kindTotal (ts : List Transaction) (k : String) : ℚ :=
  ((ts.filter (fun t => t.transaction_type = k)).map (·.amount)).sum

/-- Spec-side: total expense amount in one category. -/
def catExpenseSum (ts : List Transaction) (c : String) : ℚ :=
  ((ts.filter (fun t => t.transaction_type = "expense" ∧ t.category = c)).map
    (·.amount)).sum

/-- Sum of the values of the summary dictionary. -/
def sumValues (s : List (String × ℚ)) : ℚ :=
  (s.map Prod.snd).sum

/-! ## Helper lemmas -/

lemma foldl_kind_sum (k : String) (ts : List Transaction) (a : ℚ) :
    ts.foldl (fun acc t => if t.transaction_type = k then acc + t.amount else acc) a
      = a + kindTotal ts k := by
  induction ts generalizing a with
  | nil => simp [kindTotal]
  | cons t ts ih =>
    by_cases h : t.transaction_type = k <;>
      simp [kindTotal, List.filter_cons, h, ih, add_assoc]

lemma removeFirstById_eq_none {i : Int} {l : List Transaction} :
    removeFirstById i l = none ↔ ∀ t ∈ l, t.transaction_id ≠ i := by
  induction l with
  | nil => simp [removeFirstById]
  | cons t ts ih =>
    by_cases h : t.transaction_id = i <;>
      simp [removeFirstById, h, ih, Option.map_eq_none']

lemma removeFirstById_append (i : Int) (pre : List Transaction)
    (t : Transaction) (post : List Transaction)
    (hpre : ∀ u ∈ pre, u.transaction_id ≠ i)
    (ht : t.transaction_id = i) :
    removeFirstById i (pre ++ t :: post) = some (pre ++ post) := by
  induction pre with
  | nil => simp [removeFirstById, ht]
  | cons u us ih =>
    have hu : u.transaction_id ≠ i := hpre u (by simp)
    simp [removeFirstById, hu, ih (fun v hv => hpre v (by simp [hv]))]

lemma removeFirstById_sublist {i : Int} {l l' : List Transaction}
    (h : removeFirstById i l = some l') : l'.Sublist l := by
  induction l generalizing l' with
  | nil => simp [removeFirstById] at h
  | cons t ts ih =>
    by_cases hm : t.transaction_id = i
    · simp only [removeFirstById, if_pos hm, Option.some_inj] at h
      exact h ▸ List.sublist_cons_self t ts
    · simp only [removeFirstById, if_neg hm, Option.map_eq_some'] at h
      obtain ⟨ts', h1, h2⟩ := h
      exact h2 ▸ (ih h1).cons₂ t

lemma removeFirstById_nodup_rest {i : Int} {l l' : List Transaction}
    (hnd : (l.map (·.transaction_id)).Nodup)
    (h : removeFirstById i l = some l') :
    ∀ t ∈ l', t.transaction_id ≠ i := by
  induction l generalizing l' with
  | nil => simp [removeFirstById] at h
  | cons t ts ih =>
    simp only [List.map_cons, List.nodup_cons, List.mem_map] at hnd
    by_cases hm : t.transaction_id = i
    · simp only [removeFirstById, if_pos hm, Option.some_inj] at h
      subst h
      intro u hu hui
      exact hnd.1 ⟨u, hu, hui.trans hm.symm⟩
    · simp only [removeFirstById, if_neg hm, Option.map_eq_some'] at h
      obtain ⟨ts', h1, h2⟩ := h
      subst h2
      intro u hu
      rcases List.mem_cons.mp hu with rfl | hu
      · exact hm
      · exact ih hnd.2 h1 u hu

/-! ## Claims -/

/-- C2: for every ledger state, `calculate_balance` equals the sum of the
income amounts minus the sum of the expense amounts, and a ledger with no
transactions has balance 0. -/
theorem balance_spec (m : FinanceManager) :
    m.calculate_balance
        = kindTotal m.transactions "income" - kindTotal m.transactions "expense" ∧
    (m.transactions = [] → m.calculate_balance = 0) := by
  constructor
  · simp [FinanceManager.calculate_balance, foldl_kind_sum]
  · intro h
    simp [FinanceManager.calculate_balance, h]

/-- Witness for C2 at the freshly constructed empty ledger. -/
theorem balance_spec_witness :
    (FinanceManager.init .absent "2024-01-01 00:00:00").calculate_balance = 0 :=
  (balance_spec (FinanceManager.init .absent "2024-01-01 00:00:00")).2 rfl

/-- C9: for every ledger state and kind, `get_transactions_by_type` is
exactly the filter of `get_all_transactions` by that kind, hence an
order-preserving subsequence of it. -/
theorem by_type_spec (m : FinanceManager) (k : String) :
    m.get_transactions_by_type k
        = (m.get_all_transactions).filter (fun t => t.transaction_type = k) ∧
    (m.get_transactions_by_type k).Sublist m.get_all_transactions :=
  ⟨rfl, List.filter_sublist _⟩

/-- C4 counterexample: `add_transaction` called with the kind
`"transfer"` (neither income nor expense) does not fail; it creates the
transaction, which carries that kind. -/
theorem add_invalid_kind_counterexample :
    (((FinanceManager.init .absent "2024-01-01 00:00:00").add_transaction
        "transfer" "Misc" 5 "d" "2024-01-01 00:00:00").2).transactions.length = 1 ∧
    (((FinanceManager.init .absent "2024-01-01 00:00:00").add_transaction
        "transfer" "Misc" 5 "d" "2024-01-01 00:00:00").1).transaction_type
      = "transfer" :=
  ⟨rfl, rfl⟩

/-- C4 amended: `add_transaction` performs no validation of the kind:
for every kind string it returns a transaction bearing exactly the given
fields and the current counter as id, and appends it to the collection. -/
theorem add_no_kind_validation (m : FinanceManager)
    (ty c : String) (a : ℚ) (d n : String) :
    (m.add_transaction ty c a d n).1
        = ⟨m.next_transaction_id, ty, c, a, d, n⟩ ∧
    (m.add_transaction ty c a d n).2.transactions
        = m.transactions ++ [(m.add_transaction ty c a d n).1] :=
  ⟨rfl, rfl⟩

/-- A sample transaction and ledger state used by several witnesses. -/
def tx1 : Transaction :=
  ⟨1, "income", "Salary", 1000, "July pay", "2024-07-01 09:00:00"⟩

def sampleMgr : FinanceManager :=
  { transactions := [tx1], next_transaction_id := 2, data_file := .absent }

/-- C5: deleting an id that is present returns `true` and writes the new
state to the durable store; deleting an absent id returns `false` and
changes nothing (no write); and when ids are pairwise distinct, deleting
the same present id twice returns `true` then `false`. -/
theorem delete_contract (m : FinanceManager) (i : Int) :
    ((∃ t ∈ m.transactions, t.transaction_id = i) →
      (m.delete_transaction i).1 = true ∧
      (m.delete_transaction i).2.data_file
        = DurableStore.parsed
            { transactions :=
                some ((m.delete_transaction i).2.transactions.map Transaction.to_dict)
              next_id := some (m.delete_transaction i).2.next_transaction_id }) ∧
    ((∀ t ∈ m.transactions, t.transaction_id ≠ i) →
      m.delete_transaction i = (false, m)) ∧
    (((m.transactions.map (·.transaction_id)).Nodup ∧
        ∃ t ∈ m.transactions, t.transaction_id = i) →
      (m.delete_transaction i).1 = true ∧
      ((m.delete_transaction i).2.delete_transaction i).1 = false) := by
  refine ⟨?_, ?_, ?_⟩
  · intro hex
    have hne : removeFirstById i m.transactions ≠ none := fun hn => by
      obtain ⟨t, ht, hid⟩ := hex
      exact removeFirstById_eq_none.mp hn t ht hid
    obtain ⟨l', hl'⟩ := Option.ne_none_iff_exists'.mp hne
    simp [FinanceManager.delete_transaction, hl', FinanceManager.save_transactions]
  · intro hall
    have hn : removeFirstById i m.transactions = none :=
      removeFirstById_eq_none.mpr hall
    simp [FinanceManager.delete_transaction, hn]
  · rintro ⟨hnd, hex⟩
    have hne : removeFirstById i m.transactions ≠ none := fun hn => by
      obtain ⟨t, ht, hid⟩ := hex
      exact removeFirstById_eq_none.mp hn t ht hid
    obtain ⟨l', hl'⟩ := Option.ne_none_iff_exists'.mp hne
    have hrest := removeFirstById_nodup_rest hnd hl'
    have h2 : removeFirstById i l' = none := removeFirstById_eq_none.mpr hrest
    simp [FinanceManager.delete_transaction, hl', h2,
      FinanceManager.save_transactions]

/-- Witness for C5 on a ledger holding one transaction with id 1. -/
theorem delete_contract_witness :
    (sampleMgr.delete_transaction 1).1 = true ∧
    sampleMgr.delete_transaction 7 = (false, sampleMgr) ∧
    ((sampleMgr.delete_transaction 1).2.delete_transaction 1).1 = false :=
  ⟨((delete_contract sampleMgr 1).1 ⟨tx1, by decide, by decide⟩).1,
   (delete_contract sampleMgr 7).2.1 (by decide),
   ((delete_contract sampleMgr 1).2.2 ⟨by decide, tx1, by decide, by decide⟩).2⟩

/-- C10: `delete_transaction` removes exactly the first transaction (in
insertion order) whose id matches, leaving every other transaction in
place in the original relative order — even when several transactions
share the id. -/
theorem delete_removes_first_only (m : FinanceManager) (i : Int)
    (pre post : List Transaction) (t : Transaction)
    (hsplit : m.transactions = pre ++ t :: post)
    (hpre : ∀ u ∈ pre, u.transaction_id ≠ i)
    (ht : t.transaction_id = i) :
    (m.delete_transaction i).1 = true ∧
    (m.delete_transaction i).2.transactions = pre ++ post := by
  have h := removeFirstById_append i pre t post hpre ht
  simp [FinanceManager.delete_transaction, hsplit, h,
    FinanceManager.save_transactions]

/-- Transactions with a duplicated id, reachable only via a loaded store. -/
def txDupA : Transaction := ⟨1, "expense", "Food", 5, "a", "2024-01-01 10:00:00"⟩

def txDupB : Transaction := ⟨1, "expense", "Bills", 7, "b", "2024-01-01 11:00:00"⟩

def txOther : Transaction := ⟨2, "income", "Salary", 9, "c", "2024-01-01 12:00:00"⟩

def dupMgr : FinanceManager :=
  { transactions := [txOther, txDupA, txDupB]
    next_transaction_id := 3
    data_file := .absent }

/-- Witness for C10: with two transactions sharing id 1, `delete 1`
removes only the first of them. -/
theorem delete_removes_first_only_witness :
    (dupMgr.delete_transaction 1).1 = true ∧
    (dupMgr.delete_transaction 1).2.transactions = [txOther] ++ [txDupB] :=
  delete_removes_first_only dupMgr 1 [txOther] [txDupB] txDupA rfl (by decide) rfl

/-- A well-formed stored transaction record with id 5. -/
def tx5 : Transaction := ⟨5, "expense", "Food", 3, "x", "2024-01-02 00:00:00"⟩

/-- C3 counterexample: a durable store that parses and holds one
well-formed transaction record but is missing the `next_id` field does
NOT load as the empty collection: its transactions are kept and only the
counter falls back to 1. -/
theorem malformed_load_counterexample :
    (FinanceManager.init (.parsed
        { transactions := some [Transaction.to_dict tx5]
          next_id := none }) "2024-01-03 00:00:00").transactions = [tx5] ∧
    (FinanceManager.init (.parsed
        { transactions := some [Transaction.to_dict tx5]
          next_id := none }) "2024-01-03 00:00:00").next_transaction_id = 1 :=
  ⟨rfl, rfl⟩

/-- C3 amended: an unparseable store, a parsed store missing the
`transactions` field, or a parsed store with a malformed transaction
record all load as the empty collection with next-id 1 and never fail
construction; a parsed store missing only the `next_id` field is not
discarded: its transaction records are decoded and kept (an empty stored
timestamp being replaced by the load-time clock, as `loadRecords` does)
and the counter alone defaults to 1. -/
theorem malformed_load_spec (now : String) :
    ((FinanceManager.init .unparseable now).transactions = [] ∧
      (FinanceManager.init .unparseable now).next_transaction_id = 1) ∧
    (∀ n : Option Int,
      (FinanceManager.init
        (.parsed { transactions := none, next_id := n }) now).transactions = [] ∧
      (FinanceManager.init
        (.parsed { transactions := none, next_id := n }) now).next_transaction_id = 1) ∧
    (∀ ts : List TxDict, ∀ n : Option Int, loadRecords now ts = none →
      (FinanceManager.init
        (.parsed { transactions := some ts, next_id := n }) now).transactions = [] ∧
      (FinanceManager.init
        (.parsed { transactions := some ts, next_id := n }) now).next_transaction_id = 1) ∧
    (∀ ts : List TxDict, ∀ txs : List Transaction, loadRecords now ts = some txs →
      (FinanceManager.init
        (.parsed { transactions := some ts, next_id := none }) now).transactions = txs ∧
      (FinanceManager.init
        (.parsed { transactions := some ts, next_id := none }) now).next_transaction_id = 1) := by
  refine ⟨⟨rfl, rfl⟩, fun n => ⟨rfl, rfl⟩, ?_, ?_⟩
  · intro ts n h
    simp [FinanceManager.init, FinanceManager.load_transactions, h]
  · intro ts txs h
    simp [FinanceManager.init, FinanceManager.load_transactions, h]

/-- A transaction record with every field missing. -/
def emptyDict : TxDict := ⟨none, none, none, none, none, none⟩

/-- Witness for C3 (amended): a store with a malformed record resets to
empty; a store missing only `next_id` gets counter 1. -/
theorem malformed_load_spec_witness :
    (FinanceManager.init (.parsed
      { transactions := some [emptyDict], next_id := some 9 })
        "2024-01-03 00:00:00").transactions = [] ∧
    (FinanceManager.init (.parsed
      { transactions := some [Transaction.to_dict tx5]
        next_id := none }) "2024-01-03 00:00:00").next_transaction_id = 1 :=
  ⟨((malformed_load_spec "2024-01-03 00:00:00").2.2.1 [emptyDict] (some 9) rfl).1,
   ((malformed_load_spec "2024-01-03 00:00:00").2.2.2
      [Transaction.to_dict tx5] [tx5] rfl).2⟩

lemma add_fst_id (m : FinanceManager) (ty c : String) (a : ℚ) (d n : String) :
    (m.add_transaction ty c a d n).1.transaction_id = m.next_transaction_id := rfl

lemma add_next (m : FinanceManager) (ty c : String) (a : ℚ) (d n : String) :
    (applyOp m (.add ty c a d n)).next_transaction_id
      = m.next_transaction_id + 1 := rfl

lemma delete_next (m : FinanceManager) (i : Int) :
    (applyOp m (.delete i)).next_transaction_id = m.next_transaction_id := by
  cases hrem : removeFirstById i m.transactions <;>
    simp [applyOp, FinanceManager.delete_transaction, hrem,
      FinanceManager.save_transactions]

lemma applyOp_next_mono (m : FinanceManager) (op : Op) :
    m.next_transaction_id ≤ (applyOp m op).next_transaction_id := by
  cases op with
  | add ty c a d n => rw [add_next]; omega
  | delete i => rw [delete_next]

lemma runOps_next_mono (m : FinanceManager) (ops : List Op) :
    m.next_transaction_id ≤ (runOps m ops).next_transaction_id := by
  induction ops generalizing m with
  | nil => exact le_refl _
  | cons op ops ih =>
    exact le_trans (applyOp_next_mono m op) (ih (applyOp m op))

lemma addedIds_lb (ops : List Op) :
    ∀ m : FinanceManager, ∀ i ∈ addedIds m ops,
      m.next_transaction_id ≤ i := by
  induction ops with
  | nil => intro m i hi; simp [addedIds] at hi
  | cons op ops ih =>
    intro m i hi
    cases op with
    | add ty c a d n =>
      rcases List.mem_cons.mp hi with rfl | hi
      · exact le_refl _
      · have h1 := ih _ i hi
        rw [add_next] at h1
        omega
    | delete j =>
      have h1 := ih _ i hi
      rw [delete_next] at h1
      exact h1

/-- C1: for every starting ledger state and every sequence of operations
(adds interleaved with deletes), the ids of the transactions returned by
the `add` calls are strictly increasing in call order, hence pairwise
distinct — an id is never reused, even after the transaction bearing it
is deleted. -/
theorem added_ids_strictly_increasing (m : FinanceManager) (ops : List Op) :
    List.Pairwise (· < ·) (addedIds m ops) ∧ (addedIds m ops).Nodup := by
  have main : ∀ ops : List Op, ∀ m : FinanceManager,
      List.Pairwise (· < ·) (addedIds m ops) := by
    intro ops
    induction ops with
    | nil => intro m; simp [addedIds]
    | cons op ops ih =>
      intro m
      cases op with
      | add ty c a d n =>
        refine List.Pairwise.cons ?_ (ih _)
        intro i hi
        have h1 := addedIds_lb ops _ i hi
        rw [add_next] at h1
        rw [add_fst_id]
        omega
      | delete j => exact ih _
  exact ⟨main ops m, (main ops m).imp fun h => ne_of_lt h⟩

lemma applyOp_inv (m : FinanceManager) (op : Op) (h : ledgerInv m) :
    ledgerInv (applyOp m op) := by
  cases op with
  | add ty c a d n =>
    intro t ht
    simp only [applyOp, FinanceManager.add_transaction,
      FinanceManager.save_transactions, List.mem_append,
      List.mem_singleton] at ht
    rcases ht with ht | rfl
    · have := h t ht
      rw [add_next]
      omega
    · rw [add_next]
      exact lt_add_one _
  | delete i =>
    cases hrem : removeFirstById i m.transactions with
    | none =>
      simpa [applyOp, FinanceManager.delete_transaction, hrem] using h
    | some l' =>
      intro t ht
      have hsub := removeFirstById_sublist hrem
      simp only [applyOp, FinanceManager.delete_transaction, hrem,
        FinanceManager.save_transactions] at ht
      rw [delete_next]
      exact h t (hsub.subset ht)

lemma runOps_inv (ops : List Op) :
    ∀ m : FinanceManager, ledgerInv m → ledgerInv (runOps m ops) := by
  induction ops with
  | nil => exact fun m h => h
  | cons op ops ih => exact fun m h => ih _ (applyOp_inv m op h)

lemma idsEverPresent_lt (ops : List Op) :
    ∀ m : FinanceManager, ledgerInv m →
      ∀ i ∈ idsEverPresent m ops, i < (runOps m ops).next_transaction_id := by
  induction ops with
  | nil =>
    intro m h i hi
    simp only [idsEverPresent, List.mem_map] at hi
    obtain ⟨t, ht, rfl⟩ := hi
    exact h t ht
  | cons op ops ih =>
    intro m h i hi
    rcases List.mem_append.mp hi with hi | hi
    · simp only [List.mem_map] at hi
      obtain ⟨t, ht, rfl⟩ := hi
      have h1 := h t ht
      have h2 := applyOp_next_mono m op
      have h3 := runOps_next_mono (applyOp m op) ops
      have : runOps m (op :: ops) = runOps (applyOp m op) ops := rfl
      rw [this]
      omega
    · exact ih (applyOp m op) (applyOp_inv m op h) i hi

/-- C7 amended: the counter invariant (next-id strictly above every id in
the collection) holds for a ledger constructed with no prior durable
store, and from any state satisfying it, every sequence of adds and
deletes preserves it and keeps the final counter strictly above every id
present at any point of the run; loading an arbitrary durable store,
however, can produce a state that violates the invariant, since the
stored counter is taken as-is. -/
theorem next_id_dominates (m : FinanceManager) (ops : List Op) (now : String)
    (h : ledgerInv m) :
    ledgerInv (FinanceManager.init .absent now) ∧
    ledgerInv (runOps m ops) ∧
    ∀ i ∈ idsEverPresent m ops, i < (runOps m ops).next_transaction_id := by
  refine ⟨?_, runOps_inv ops m h, idsEverPresent_lt ops m h⟩
  intro t ht
  simp [FinanceManager.init, FinanceManager.load_transactions] at ht

/-- Witness for C7 (amended): one add then one delete on the fresh empty
ledger keeps the invariant. -/
theorem next_id_dominates_witness :
    ledgerInv (runOps (FinanceManager.init .absent "2024-07-01 09:00:00")
      [.add "income" "Salary" 1000 "July pay" "2024-07-01 09:00:00", .delete 1]) :=
  (next_id_dominates (FinanceManager.init .absent "2024-07-01 09:00:00")
    [.add "income" "Salary" 1000 "July pay" "2024-07-01 09:00:00", .delete 1]
    "2024-07-01 09:00:00"
    (fun t ht => by simp [FinanceManager.init,
      FinanceManager.load_transactions] at ht)).2.1

/-- A well-formed durable store whose counter does not exceed the stored
ids. -/
def badStore : StoreDict :=
  { transactions := some [Transaction.to_dict tx5], next_id := some 2 }

/-- C7 counterexample: loading `badStore` yields a reachable state holding
a transaction with id 5 while the next-id counter is 2, so the counter is
not strictly greater than every id present. -/
theorem next_id_counterexample :
    tx5 ∈ (FinanceManager.init (.parsed badStore)
        "2024-01-03 00:00:00").transactions ∧
    ¬ tx5.transaction_id
        < (FinanceManager.init (.parsed badStore)
            "2024-01-03 00:00:00").next_transaction_id := by
  constructor
  · show tx5 ∈ [tx5]
    simp
  · show ¬ (5 : Int) < 2
    decide

lemma lookupCat_dictSet_self (s : List (String × ℚ)) (c : String) (v : ℚ) :
    lookupCat (dictSet s c v) c = some v := by
  induction s with
  | nil => simp [dictSet, lookupCat]
  | cons p rest ih =>
    obtain ⟨k, w⟩ := p
    by_cases h : k = c <;> simp [dictSet, lookupCat, h, ih]

lemma lookupCat_dictSet_ne (s : List (String × ℚ)) (c c' : String) (v : ℚ)
    (h : c' ≠ c) : lookupCat (dictSet s c v) c' = lookupCat s c' := by
  induction s with
  | nil => simp [dictSet, lookupCat, Ne.symm h]
  | cons p rest ih =>
    obtain ⟨k, w⟩ := p
    by_cases hk : k = c
    · subst hk
      have hk' : ¬ k = c' := fun hx => h hx.symm
      simp [dictSet, lookupCat, hk']
    · by_cases hk' : k = c'
      · subst hk'
        simp [dictSet, lookupCat, hk]
      · simp [dictSet, lookupCat, hk, hk', ih]

lemma sumValues_dictSet (s : List (String × ℚ)) (c : String) (a : ℚ) :
    sumValues (dictSet s c ((lookupCat s c).getD 0 + a)) = sumValues s + a := by
  induction s with
  | nil => simp [dictSet, lookupCat, sumValues]
  | cons p rest ih =>
    obtain ⟨k, w⟩ := p
    by_cases h : k = c
    · simp only [lookupCat, if_pos h, dictSet, sumValues, List.map_cons,
        List.sum_cons, Option.getD_some]
      ring
    · simp only [lookupCat, if_neg h, dictSet, sumValues, List.map_cons,
        List.sum_cons] at ih ⊢
      rw [ih]
      ring

lemma lookupCat_foldl_getD (ts : List Transaction) :
    ∀ (acc : List (String × ℚ)) (c : String),
      (lookupCat (ts.foldl summaryStep acc) c).getD 0
        = (lookupCat acc c).getD 0 + catExpenseSum ts c := by
  induction ts with
  | nil => intro acc c; simp [catExpenseSum]
  | cons t ts ih =>
    intro acc c
    rw [List.foldl_cons, ih]
    by_cases he : t.transaction_type = "expense"
    · by_cases hc : t.category = c
      · rw [show summaryStep acc t
            = dictSet acc t.category
                ((lookupCat acc t.category).getD 0 + t.amount) from if_pos he]
        rw [hc, lookupCat_dictSet_self]
        simp [catExpenseSum, List.filter_cons, he, hc]
        ring
      · rw [show summaryStep acc t
            = dictSet acc t.category
                ((lookupCat acc t.category).getD 0 + t.amount) from if_pos he]
        rw [lookupCat_dictSet_ne _ _ _ _ (fun hx => hc hx.symm)]
        simp [catExpenseSum, List.filter_cons, he, hc]
    · rw [show summaryStep acc t = acc from if_neg he]
      simp [catExpenseSum, List.filter_cons, he]

lemma lookupCat_foldl_none (ts : List Transaction) :
    ∀ (acc : List (String × ℚ)) (c : String),
      lookupCat (ts.foldl summaryStep acc) c = none ↔
        lookupCat acc c = none ∧
          ∀ t ∈ ts, ¬(t.transaction_type = "expense" ∧ t.category = c) := by
  induction ts with
  | nil => intro acc c; simp
  | cons t ts ih =>
    intro acc c
    rw [List.foldl_cons, ih]
    by_cases he : t.transaction_type = "expense"
    · by_cases hc : t.category = c
      · rw [show summaryStep acc t
            = dictSet acc t.category
                ((lookupCat acc t.category).getD 0 + t.amount) from if_pos he]
        rw [hc, lookupCat_dictSet_self]
        simp [he, hc]
      · rw [show summaryStep acc t
            = dictSet acc t.category
                ((lookupCat acc t.category).getD 0 + t.amount) from if_pos he]
        rw [lookupCat_dictSet_ne _ _ _ _ (fun hx => hc hx.symm)]
        simp [he, hc]
    · rw [show summaryStep acc t = acc from if_neg he]
      simp [he]

lemma sumValues_foldl (ts : List Transaction) :
    ∀ acc : List (String × ℚ),
      sumValues (ts.foldl summaryStep acc)
        = sumValues acc + kindTotal ts "expense" := by
  induction ts with
  | nil => intro acc; simp [kindTotal]
  | cons t ts ih =>
    intro acc
    rw [List.foldl_cons, ih]
    by_cases he : t.transaction_type = "expense"
    · rw [show summaryStep acc t
          = dictSet acc t.category
              ((lookupCat acc t.category).getD 0 + t.amount) from if_pos he]
      rw [sumValues_dictSet]
      simp [kindTotal, List.filter_cons, he]
      ring
    · rw [show summaryStep acc t = acc from if_neg he]
      simp [kindTotal, List.filter_cons, he]

/-- C8: for every ledger state, `get_category_summary` maps a category to
`some` of the total expense amount in it exactly when the category has at
least one expense transaction, maps it to `none` otherwise (income never
contributes), and the sum of all its values is the total of all expense
amounts. -/
theorem category_summary_spec (m : FinanceManager) :
    (∀ c : String,
      ((∃ t ∈ m.transactions,
          t.transaction_type = "expense" ∧ t.category = c) →
        lookupCat (m.get_category_summary) c
          = some (catExpenseSum m.transactions c)) ∧
      ((∀ t ∈ m.transactions,
          ¬(t.transaction_type = "expense" ∧ t.category = c)) →
        lookupCat (m.get_category_summary) c = none)) ∧
    sumValues (m.get_category_summary) = kindTotal m.transactions "expense" := by
  refine ⟨fun c => ⟨?_, ?_⟩, ?_⟩
  · intro hex
    have hnone : lookupCat (m.transactions.foldl summaryStep []) c ≠ none := by
      intro hn
      rw [lookupCat_foldl_none] at hn
      obtain ⟨-, h2⟩ := hn
      obtain ⟨t, ht, hp⟩ := hex
      exact h2 t ht hp
    obtain ⟨v, hv⟩ := Option.ne_none_iff_exists'.mp hnone
    have hg := lookupCat_foldl_getD m.transactions [] c
    rw [hv] at hg
    simp only [Option.getD_some, lookupCat, Option.getD_none, zero_add] at hg
    show lookupCat (m.transactions.foldl summaryStep []) c = _
    rw [hv, hg]
  · intro hall
    show lookupCat (m.transactions.foldl summaryStep []) c = none
    rw [lookupCat_foldl_none]
    exact ⟨rfl, hall⟩
  · show sumValues (m.transactions.foldl summaryStep []) = _
    rw [sumValues_foldl]
    simp [sumValues]

/-- Witness for C8 on the three-transaction sample ledger. -/
theorem category_summary_spec_witness :
    lookupCat (dupMgr.get_category_summary) "Food"
      = some (catExpenseSum dupMgr.transactions "Food") ∧
    lookupCat (dupMgr.get_category_summary) "Salary" = none ∧
    sumValues (dupMgr.get_category_summary)
      = kindTotal dupMgr.transactions "expense" :=
  ⟨((category_summary_spec dupMgr).1 "Food").1 ⟨txDupA, by decide, by decide⟩,
   ((category_summary_spec dupMgr).1 "Salary").2 (by decide),
   (category_summary_spec dupMgr).2⟩

end FinanceTracker
